import Mathlib

/-!
Verification development for the `pdf_attachments` tool
(`src/pdf_attachments.py`): listing, extracting and adding file
attachments of PDF documents.

The embedding works at the level of the parsed PDF object graph: the
Python code reads documents through `pypdf.PdfReader`, whose result is
modelled here by the `Document` structure (a document-level
`/EmbeddedFiles` name-tree `/Names` array plus a list of pages carrying
annotations).  Every function of `src/pdf_attachments.py` that walks
this graph is translated directly; Python exceptions become the `Res`
result type, byte strings become `List Nat`, and the on-disk write of
`add_attachment` becomes an explicit list of (path, document) write
events so that "nothing was written" is expressible.
-/

namespace PdfAttachments

/-- Python exceptions that can escape the functions under study:
`CorruptAttachmentError` (raised by `_stream_data`), `IndexError`
(raised by `names[i + 1]` on an odd-length name-tree array) and
`AttributeError` (raised when a name-tree entry used as a file
specification is not a dictionary). -/
inductive PyErr where
  | corruptAttachment (msg : String)
  | indexError
  | attributeError
deriving DecidableEq

/-- Result of a Python computation: a value or an escaping exception. -/
inductive Res (α : Type) where
  | ok (val : α)
  | err (e : PyErr)
deriving DecidableEq

def Res.bind {α β : Type} : Res α → (α → Res β) → Res β
  | .ok a, f => f a
  | .err e, _ => .err e

instance : Monad Res where
  pure := Res.ok
  bind := Res.bind

/-- What `get_data()` on an embedded-file stream object does: either
returns the decoded bytes or raises (filter failure etc.). -/
inductive DecodeResult where
  | ok (bytes : List Nat)
  | fail (msg : String)
deriving DecidableEq

/-- An embedded-file stream object (the value of the `/EF` dictionary's
`/F` key): its optional declared `/Params` `/Size` entry and the
behaviour of `get_data()` on it. -/
structure PdfStream where
  paramsSize : Option Int
  decodeResult : DecodeResult
deriving DecidableEq

/-- A file-specification dictionary: `ef` is the `/EF` dictionary's `/F`
stream entry (absent when `/EF` is missing or lacks `/F` — the code
treats both alike via `spec.get("/EF", \x7b\x7d).get("/F")`), `desc` the
`/Desc` entry, `nameF` and `nameUF` the `/F` and `/UF` filename strings
used by page-level attachments. -/
structure FileSpec where
  ef : Option PdfStream
  desc : Option String
  nameF : Option String
  nameUF : Option String
deriving DecidableEq

/-- A page annotation (an element of a page's `/Annots` array). -/
structure Annot where
  subtype : String
  fs : Option FileSpec
  contents : Option String
deriving DecidableEq

/-- A page: its `/Annots` array (empty when absent). -/
structure Page where
  annots : List Annot
deriving DecidableEq

/-- One element of the catalog's `/Names /EmbeddedFiles /Names` array:
in a well-formed document the array alternates name strings and
file-specification dictionaries, but the model keeps the raw sequence so
that malformed (odd-length or mis-typed) arrays are representable. -/
inductive NamesElem where
  | name (s : String)
  | spec (fs : FileSpec)
deriving DecidableEq

/-- A parsed PDF document as `pdf_attachments.py` consumes it through
`pypdf`: the flat `/EmbeddedFiles` `/Names` array reachable from the
catalog (defaulted to `[]` when any link of the
`/Names → /EmbeddedFiles → /Names` chain is absent, exactly as the
chained `.get(…, \x7b\x7d)` calls do) and the document's pages. -/
structure Document where
  names : List NamesElem
  pages : List Page
deriving DecidableEq

/-- The `Attachment` dataclass. -/
structure Attachment where
  name : String
  size : Option Int := none
  description : String := ""
  page : Option Nat := none
  data : Option (List Nat) := none
deriving DecidableEq

/-- Single-quote character, used when reproducing the Python error
message text. -/
def sq : String := ⟨[Char.ofNat 39]⟩

/-- `repr`-style quoting used by the f-strings of the Python code. -/
def quoteS (s : String) : String := sq ++ s ++ sq

/-- Message of `CorruptAttachmentError` as built in `_stream_data`. -/
def corruptMsg (e : String) : String :=
  "Failed to decode attachment stream: " ++ e

/-- `_stream_size(ef)`: declared `/Params` `/Size` if present, else the
decoded length, else `None` (the `try/except` swallows decode
failures). -/
def stream_size : Option PdfStream → Option Int
  | none => none
  | some st =>
    match st.paramsSize with
    | some n => some n
    | none =>
      match st.decodeResult with
      | .ok b => some (Int.ofNat b.length)
      | .fail _ => none

/-- `_stream_data(ef)`: `None` when `/EF` has no `/F` stream, the
decoded bytes on success, and `CorruptAttachmentError` when
`get_data()` raises. -/
def stream_data : Option PdfStream → Res (Option (List Nat))
  | none => .ok none
  | some st =>
    match st.decodeResult with
    | .ok b => .ok (some b)
    | .fail e => .err (.corruptAttachment (corruptMsg e))

/-- `str(names[i])` on a name-tree element.  For a name string this is
the string itself; the rendering of a dictionary object is abstracted
(no claim depends on it). -/
def elemStr : NamesElem → String
  | .name s => s
  | .spec _ => "<file specification dictionary>"

/-- `names[i + 1].get_object()` used as a dictionary: a string in that
position raises `AttributeError` at the following `spec.get` call. -/
def asSpec : NamesElem → Res FileSpec
  | .spec s => .ok s
  | .name _ => .err .attributeError

/-- Body of the `_get_document_attachments` loop for one
(name, file-spec) pair: builds the `Attachment`, decoding the stream
only when `with_data` is set. -/
def buildDocAttachment (withData : Bool) (nm : String) (sp : FileSpec) :
    Res Attachment := do
  let d ← if withData then stream_data sp.ef else pure none
  pure { name := nm, size := stream_size sp.ef,
         description := sp.desc.getD "", page := none, data := d }

/-- `_get_document_attachments`: walks the `/Names` array two entries at
a time (`for i in range(0, len(names), 2)`); `names[i + 1]` on an
odd-length array raises `IndexError` before anything of the trailing
entry is looked at. -/
def get_document_attachments (withData : Bool) :
    List NamesElem → Res (List Attachment)
  | [] => .ok []
  | [_] => .err .indexError
  | e1 :: e2 :: rest => do
    let sp ← asSpec e2
    let att ← buildDocAttachment withData (elemStr e1) sp
    let more ← get_document_attachments withData rest
    pure (att :: more)

/-- The empty dictionary that `annot.get("/FS", \x7b\x7d)` produces when
the annotation has no file specification. -/
def emptyFileSpec : FileSpec :=
  { ef := none, desc := none, nameF := none, nameUF := none }

/-- `fs.get("/F", fs.get("/UF", "unknown"))`: primary filename key, else
the Unicode fallback, else the literal `"unknown"`. -/
def pageAttachmentName (fs : FileSpec) : String :=
  match fs.nameF with
  | some s => s
  | none => fs.nameUF.getD "unknown"

/-- Body of the `_get_page_attachments` inner loop for one annotation:
skips non-`/FileAttachment` subtypes, otherwise builds the
`Attachment`. -/
def buildPageAttachment (withData : Bool) (pageNum : Nat) (a : Annot) :
    Res (Option Attachment) :=
  if a.subtype = "/FileAttachment" then do
    let fs := a.fs.getD emptyFileSpec
    let d ← if withData then stream_data fs.ef else pure none
    pure (some { name := pageAttachmentName fs, size := stream_size fs.ef,
                 description := fs.desc.getD (a.contents.getD ""),
                 page := some pageNum, data := d })
  else pure none

/-- The `/Annots` walk of one page, in array order. -/
def annots_attachments (withData : Bool) (pageNum : Nat) :
    List Annot → Res (List Attachment)
  | [] => .ok []
  | a :: rest => do
    let o ← buildPageAttachment withData pageNum a
    let more ← annots_attachments withData pageNum rest
    pure (match o with | some att => att :: more | none => more)

/-- `_get_page_attachments`: pages in increasing page-number order
(`enumerate(reader.pages, 1)` makes numbers 1-based). -/
def get_page_attachments (withData : Bool) :
    Nat → List Page → Res (List Attachment)
  | _, [] => .ok []
  | i, p :: rest => do
    let here ← annots_attachments withData i p.annots
    let more ← get_page_attachments withData (i + 1) rest
    pure (here ++ more)

/-- The `_get_document_attachments(...) + _get_page_attachments(...)`
concatenation shared by `list_attachments` and `get_attachment`. -/
def enumerate_attachments (withData : Bool) (d : Document) :
    Res (List Attachment) := do
  let docAtts ← get_document_attachments withData d.names
  let pageAtts ← get_page_attachments withData 1 d.pages
  pure (docAtts ++ pageAtts)

/-- `list_attachments(pdf_path)` (the document stands for the parsed
file). -/
def list_attachments (d : Document) : Res (List Attachment) :=
  enumerate_attachments false d

/-- `get_attachment(pdf_path, name)`: enumerates everything with data
and returns the first exact match, `None` when absent. -/
def get_attachment (d : Document) (nm : String) : Res (Option Attachment) := do
  let all ← enumerate_attachments true d
  pure (all.find? (fun a => decide (a.name = nm)))

/-- An input file handed to `add_attachment`: its path string and the
bytes `read_bytes()` yields. -/
structure InputFile where
  path : String
  content : List Nat
deriving DecidableEq

/-- Split a character list at every slash. -/
def splitOnSlash : List Char → List (List Char)
  | [] => [[]]
  | c :: rest =>
    match splitOnSlash rest with
    | [] => [[]]
    | g :: gs => if c = '/' then [] :: g :: gs else (c :: g) :: gs

/-- `pathlib.Path(p).name`: the final slash-separated component
(trailing slashes stripped). -/
def pathName (p : String) : String :=
  String.mk ((((splitOnSlash p.data).filter (fun s => s ≠ []))).getLast?.getD [])

/-- Python `dict.get(k, dflt)` on the rename mapping, the dictionary
represented by its (unique-keyed) item list. -/
def dictGet (m : List (String × String)) (k dflt : String) : String :=
  match m.find? (fun kv => decide (kv.1 = k)) with
  | some kv => kv.2
  | none => dflt

/-- The final attachment name of one input file:
`renames.get(file.name, file.name)`. -/
def resolveName (renames : List (String × String)) (f : InputFile) : String :=
  dictGet renames (pathName f.path) (pathName f.path)

/-- The `resolved` list of `add_attachment`: each file paired with its
final name, in input order. -/
def resolvedOf (files : List InputFile) (renames : List (String × String)) :
    List (InputFile × String) :=
  files.map (fun f => (f, resolveName renames f))

/-- The duplicate-detection loop of `add_attachment` (`seen` dict):
returns the first name already seen, together with the current file and
the file recorded for that name. -/
def checkDup (seen : List (String × InputFile)) :
    List (InputFile × String) → Option (String × InputFile × InputFile)
  | [] => none
  | (f, n) :: rest =>
    match seen.find? (fun kv => decide (kv.1 = n)) with
    | some kv => some (n, f, kv.2)
    | none => checkDup ((n, f) :: seen) rest

/-- Message of the duplicate-input `ValueError`. -/
def dupMsg (n p1 p2 : String) : String :=
  "Duplicate input name " ++ quoteS n ++ " (from " ++ quoteS p1 ++ " and " ++
    quoteS p2 ++ "). Use --name to rename one of them."

/-- Message of the existing-collision `ValueError`. -/
def collisionMsg (cs : List String) : String :=
  "Attachment(s) already exist in the PDF: " ++
    String.intercalate ", " (cs.map quoteS) ++ ". Use --name to rename them."

/-- Errors of `add_attachment`: the two `ValueError`s it raises itself
(the spec's `DuplicateInputNameError` and `ExistingAttachmentNameError`)
plus any exception escaping from `list_attachments`. -/
inductive AddError where
  | duplicateInput (nm : String) (path1 path2 : String) (msg : String)
  | existingNames (names : List String) (msg : String)
  | pdfError (e : PyErr)
deriving DecidableEq

/-- Result of `add_attachment`: the returned count or the raised
error. -/
inductive AddResult where
  | ok (count : Nat)
  | err (e : AddError)
deriving DecidableEq

/-- Modelled from the spec: `pypdf.PdfWriter.add_attachment` is not part
of this repository.  Per §4.4 (Writer/Cloner, steps 2–3) it allocates a
fresh embedded-file stream holding the raw bytes and appends the
(name, file-spec-reference) pair to the `/EmbeddedFiles` `/Names` array;
the written file re-reads to exactly these bytes (§4.4 guarantee,
losslessness of the deflate filter). -/
def writerAddAttachment (d : Document) (n : String) (b : List Nat) : Document :=
  { d with
    names := d.names ++
      [.name n,
       .spec { ef := some { paramsSize := none, decodeResult := .ok b },
               desc := none, nameF := none, nameUF := none }] }

/-- `add_attachment(pdf_path, files, output_path, renames=...)`.
`PdfWriter(clone_from=pdf_path)` is modelled as the identity on the
parsed document (spec §4.4 step 1: every source object is copied
verbatim).  The second component records the file writes performed:
empty on every error path, the single `output_path` write on success. -/
def add_attachment (d : Document) (files : List InputFile)
    (output_path : String) (renames : List (String × String)) :
    AddResult × List (String × Document) :=
  let resolved := resolvedOf files renames
  match checkDup [] resolved with
  | some t =>
    (.err (.duplicateInput t.1 t.2.1.path t.2.2.path
       (dupMsg t.1 t.2.1.path t.2.2.path)), [])
  | none =>
    match list_attachments d with
    | .err e => (.err (.pdfError e), [])
    | .ok atts =>
      let existing := atts.map (fun a => a.name)
      let collisions :=
        (resolved.filter (fun r => decide (r.2 ∈ existing))).map (fun r => r.2)
      if collisions.isEmpty then
        (.ok files.length,
         [(output_path,
           resolved.foldl (fun acc r => writerAddAttachment acc r.2 r.1.content) d)])
      else
        (.err (.existingNames collisions (collisionMsg collisions)), [])

/-- Observable outcome of the CLI `get` command (after the PDF-file
existence check, which is filesystem business outside the model). -/
inductive GetOutcome where
  | corruptExit (msg : String)
  | notFound
  | uncaught (e : PyErr)
  | extracted (outPath : String) (contents : List Nat)
deriving DecidableEq

/-- `cmd_get(pdf, name, output)`: catches `CorruptAttachmentError`,
treats both a missing match and a match without data as "not found",
otherwise writes the bytes to `output` (default: the attachment's
name). -/
def cmd_get (d : Document) (nm : String) (output : Option String) :
    GetOutcome :=
  match get_attachment d nm with
  | .err (.corruptAttachment m) =>
    .corruptExit ("Error: attachment " ++ quoteS nm ++ " is corrupt: " ++ m)
  | .err e => .uncaught e
  | .ok none => .notFound
  | .ok (some att) =>
    match att.data with
    | none => .notFound
    | some b => .extracted (output.getD att.name) b

/-- Process exit code of a `get` outcome (an uncaught exception also
terminates the interpreter with code 1). -/
def exitCode : GetOutcome → Nat
  | .extracted _ _ => 0
  | _ => 1

/-- A well-formed `/Names` array: the alternating flat (name, file-spec)
pair sequence, as the data-model invariant describes it. -/
def toNamesElems : List (String × FileSpec) → List NamesElem
  | [] => []
  | (n, s) :: rest => .name n :: .spec s :: toNamesElems rest

/-- Whether `get_data()` would succeed on the `/EF` `/F` stream (an
absent stream counts as fine: `_stream_data` returns `None` without
raising). -/
def efDecodes : Option PdfStream → Bool
  | none => true
  | some st =>
    match st.decodeResult with
    | .ok _ => true
    | .fail _ => false

/-- The bytes `_stream_data` would deliver when it does not raise. -/
def streamDataOk : Option PdfStream → Option (List Nat)
  | none => none
  | some st =>
    match st.decodeResult with
    | .ok b => some b
    | .fail _ => none

/-- Every document-level pair's stream decodes (or is absent). -/
def pairsDecodable (pairs : List (String × FileSpec)) : Bool :=
  pairs.all (fun p => efDecodes p.2.ef)

/-- Whether an annotation is a file-attachment annotation. -/
def annotIsFile (a : Annot) : Bool := decide (a.subtype = "/FileAttachment")

/-- An annotation whose stream the enumeration would have to decode
decodes; annotations of other subtypes are never touched. -/
def annotDecodes (a : Annot) : Bool :=
  !annotIsFile a || efDecodes (a.fs.getD emptyFileSpec).ef

/-- Every relevant stream of every page decodes. -/
def pagesDecodable (pages : List Page) : Bool :=
  pages.all (fun p => p.annots.all annotDecodes)

/-- The attachment value a document-level pair contributes. -/
def mkDocAtt (withData : Bool) (p : String × FileSpec) : Attachment :=
  { name := p.1, size := stream_size p.2.ef,
    description := p.2.desc.getD "", page := none,
    data := if withData then streamDataOk p.2.ef else none }

/-- The attachment value a file-attachment annotation contributes. -/
def mkPageAtt (withData : Bool) (i : Nat) (a : Annot) : Attachment :=
  { name := pageAttachmentName (a.fs.getD emptyFileSpec),
    size := stream_size (a.fs.getD emptyFileSpec).ef,
    description := (a.fs.getD emptyFileSpec).desc.getD (a.contents.getD ""),
    page := some i,
    data := if withData then streamDataOk (a.fs.getD emptyFileSpec).ef else none }

/-- Document-level attachments in name-tree pair order. -/
def pureDocPart (withData : Bool) (pairs : List (String × FileSpec)) :
    List Attachment :=
  pairs.map (mkDocAtt withData)

/-- Page-level attachments in increasing page-number order, and within
each page in `/Annots` array order, filtered to the file-attachment
subtype. -/
def purePagePart (withData : Bool) : Nat → List Page → List Attachment
  | _, [] => []
  | i, p :: rest =>
    (p.annots.filter annotIsFile).map (mkPageAtt withData i) ++
      purePagePart withData (i + 1) rest

/-- The enumeration order in the spec's words (§4.3): document-level
attachments in name-tree pair order first, then page-level attachments
in increasing page-number order, within each page in `/Annots` array
order filtered to the file-attachment subtype — metadata only, no
data. -/
def specEnumerationOrder (pairs : List (String × FileSpec))
    (pages : List Page) : List Attachment :=
  pureDocPart false pairs ++ purePagePart false 1 pages

/-- The collisions that step 3 of `add` computes, expressed over the
declarative enumeration: resolved names (in input order) already
present among the document's attachment names. -/
def collisionList (files : List InputFile) (renames : List (String × String))
    (pairs : List (String × FileSpec)) (pages : List Page) : List String :=
  ((resolvedOf files renames).filter
      (fun r => decide (r.2 ∈ (specEnumerationOrder pairs pages).map
        (fun a => a.name)))).map (fun r => r.2)

/-- A document-level or page-level attachment named `nm` is present but
its stream fails to decode. -/
def corruptNamed (pairs : List (String × FileSpec)) (pages : List Page)
    (nm : String) : Prop :=
  (∃ p ∈ pairs, p.1 = nm ∧ efDecodes p.2.ef = false) ∨
  (∃ pg ∈ pages, ∃ a ∈ pg.annots, annotIsFile a = true ∧
    pageAttachmentName (a.fs.getD emptyFileSpec) = nm ∧
    efDecodes (a.fs.getD emptyFileSpec).ef = false)

/-- A healthy embedded-file stream with no declared size. -/
def okStream (b : List Nat) : PdfStream :=
  { paramsSize := none, decodeResult := .ok b }

/-- A plain file specification around a healthy stream (the shape
`pypdf`'s writer produces, see `writerAddAttachment`). -/
def okSpecOf (b : List Nat) : FileSpec :=
  { ef := some (okStream b), desc := none, nameF := none, nameUF := none }

/-- A stream that declares size 5 but whose data fails to decode. -/
def corruptStream : PdfStream :=
  { paramsSize := some 5, decodeResult := .fail "bad filter" }

/-- A file specification around the corrupt stream. -/
def corruptSpec : FileSpec :=
  { ef := some corruptStream, desc := none, nameF := none, nameUF := none }

/-- A file specification whose `/EF` dictionary lacks the `/F` stream. -/
def noStreamSpec : FileSpec :=
  { ef := none, desc := none, nameF := none, nameUF := none }

/-- A document with no attachments and no pages. -/
def emptyDoc : Document := { names := [], pages := [] }

/-- A document whose single attachment `bad.txt` has an undecodable
stream. -/
def docWithCorrupt : Document :=
  { names := toNamesElems [("bad.txt", corruptSpec)], pages := [] }

/-- An input file named `good.txt` with two bytes of content. -/
def goodFile : InputFile := { path := "good.txt", content := [104, 105] }

/-- The document produced by adding `goodFile` to `docWithCorrupt`. -/
def docAfterAdd : Document :=
  { names := docWithCorrupt.names ++
      [.name "good.txt", .spec (okSpecOf [104, 105])], pages := [] }

/-- Two input files from different directories sharing the base name
`x.txt`. -/
def fileA : InputFile := { path := "a/x.txt", content := [1] }

/-- See `fileA`. -/
def fileB : InputFile := { path := "b/x.txt", content := [2] }

/-- An input file whose base name collides with `pairsX`. -/
def fileC : InputFile := { path := "x.txt", content := [1] }

/-- A one-attachment name tree holding `x.txt`. -/
def pairsX : List (String × FileSpec) := [("x.txt", okSpecOf [97])]

/-- A document already containing an attachment named `x.txt`. -/
def docX : Document := { names := toNamesElems pairsX, pages := [] }

/-- A file-attachment annotation whose file specification is also named
`x.txt` (used to exercise the document-level/page-level tie). -/
def tieAnnot : Annot :=
  { subtype := "/FileAttachment",
    fs := some { ef := some (okStream [9]), desc := none,
                 nameF := some "x.txt", nameUF := none },
    contents := none }

/-- A page carrying `tieAnnot`. -/
def tiePage : Page := { annots := [tieAnnot] }

/-- A document whose single attachment lacks the `/EF` `/F` stream. -/
def doc10 : Document :=
  { names := toNamesElems [("a.txt", noStreamSpec)], pages := [] }

/-!  ## Theorems  -/

@[simp] theorem Res.bind_ok {α β : Type} (a : α) (f : α → Res β) :
    (Res.ok a >>= f) = f a := rfl

@[simp] theorem Res.bind_err {α β : Type} (e : PyErr) (f : α → Res β) :
    ((Res.err e : Res α) >>= f) = .err e := rfl

@[simp] theorem Res.pure_eq {α : Type} (a : α) : (pure a : Res α) = .ok a := rfl

theorem toNamesElems_append (l1 l2 : List (String × FileSpec)) :
    toNamesElems (l1 ++ l2) = toNamesElems l1 ++ toNamesElems l2 := by
  induction l1 with
  | nil => rfl
  | cons p rest ih =>
    obtain ⟨n, s⟩ := p
    simp [toNamesElems, ih]

theorem buildDocAttachment_false (nm : String) (sp : FileSpec) :
    buildDocAttachment false nm sp = .ok (mkDocAtt false (nm, sp)) := rfl

theorem buildDocAttachment_true_ok (nm : String) (sp : FileSpec)
    (h : efDecodes sp.ef = true) :
    buildDocAttachment true nm sp = .ok (mkDocAtt true (nm, sp)) := by
  cases hef : sp.ef with
  | none =>
    simp [buildDocAttachment, mkDocAtt, stream_data, streamDataOk, hef]
  | some st =>
    cases hdr : st.decodeResult with
    | ok b =>
      simp [buildDocAttachment, mkDocAtt, stream_data, streamDataOk, hef, hdr]
    | fail e => simp [efDecodes, hef, hdr] at h

theorem buildDocAttachment_true_fail (nm : String) (sp : FileSpec)
    (h : efDecodes sp.ef = false) :
    ∃ m, buildDocAttachment true nm sp = .err (.corruptAttachment m) := by
  cases hef : sp.ef with
  | none => simp [efDecodes, hef] at h
  | some st =>
    cases hdr : st.decodeResult with
    | ok b => simp [efDecodes, hef, hdr] at h
    | fail e =>
      exact ⟨corruptMsg e, by simp [buildDocAttachment, stream_data, hef, hdr]⟩

theorem get_document_attachments_false (pairs : List (String × FileSpec)) :
    get_document_attachments false (toNamesElems pairs) =
      .ok (pureDocPart false pairs) := by
  induction pairs with
  | nil => rfl
  | cons p rest ih =>
    obtain ⟨n, s⟩ := p
    simp [toNamesElems, get_document_attachments, asSpec, elemStr,
      buildDocAttachment_false, ih, pureDocPart]

theorem get_document_attachments_true_ok (pairs : List (String × FileSpec))
    (h : pairsDecodable pairs = true) :
    get_document_attachments true (toNamesElems pairs) =
      .ok (pureDocPart true pairs) := by
  induction pairs with
  | nil => rfl
  | cons p rest ih =>
    obtain ⟨n, s⟩ := p
    rw [pairsDecodable, List.all_cons, Bool.and_eq_true] at h
    simp [toNamesElems, get_document_attachments, asSpec, elemStr,
      buildDocAttachment_true_ok n s h.1,
      ih (by simpa [pairsDecodable] using h.2), pureDocPart]

theorem get_document_attachments_true_fail (pairs : List (String × FileSpec))
    (h : pairsDecodable pairs = false) :
    ∃ m, get_document_attachments true (toNamesElems pairs) =
      .err (.corruptAttachment m) := by
  induction pairs with
  | nil => simp [pairsDecodable] at h
  | cons p rest ih =>
    obtain ⟨n, s⟩ := p
    by_cases hd : efDecodes s.ef = true
    · have hrest : pairsDecodable rest = false := by
        rw [pairsDecodable, List.all_cons, hd] at h
        simpa [pairsDecodable] using h
      obtain ⟨m, hm⟩ := ih hrest
      exact ⟨m, by simp [toNamesElems, get_document_attachments, asSpec, elemStr,
        buildDocAttachment_true_ok n s hd, hm]⟩
    · have hd' : efDecodes s.ef = false := by
        cases hh : efDecodes s.ef <;> simp_all
      obtain ⟨m, hm⟩ := buildDocAttachment_true_fail n s hd'
      exact ⟨m, by simp [toNamesElems, get_document_attachments, asSpec, elemStr, hm]⟩

theorem buildPageAttachment_nonfile (w : Bool) (i : Nat) (a : Annot)
    (h : annotIsFile a = false) :
    buildPageAttachment w i a = .ok none := by
  rw [annotIsFile, decide_eq_false_iff_not] at h
  simp [buildPageAttachment, h]

theorem buildPageAttachment_file_false (i : Nat) (a : Annot)
    (hsub : a.subtype = "/FileAttachment") :
    buildPageAttachment false i a = .ok (some (mkPageAtt false i a)) := by
  simp [buildPageAttachment, mkPageAtt, hsub]

theorem buildPageAttachment_file_ok (w : Bool) (i : Nat) (a : Annot)
    (hsub : a.subtype = "/FileAttachment")
    (hdec : efDecodes (a.fs.getD emptyFileSpec).ef = true) :
    buildPageAttachment w i a = .ok (some (mkPageAtt w i a)) := by
  cases hef : (a.fs.getD emptyFileSpec).ef with
  | none =>
    cases w <;>
      simp [buildPageAttachment, mkPageAtt, hsub, stream_data, streamDataOk, hef]
  | some st =>
    cases hdr : st.decodeResult with
    | ok b =>
      cases w <;>
        simp [buildPageAttachment, mkPageAtt, hsub, stream_data, streamDataOk,
          hef, hdr]
    | fail e => simp [efDecodes, hef, hdr] at hdec

theorem buildPageAttachment_file_fail (i : Nat) (a : Annot)
    (hsub : a.subtype = "/FileAttachment")
    (hdec : efDecodes (a.fs.getD emptyFileSpec).ef = false) :
    ∃ m, buildPageAttachment true i a = .err (.corruptAttachment m) := by
  cases hef : (a.fs.getD emptyFileSpec).ef with
  | none => simp [efDecodes, hef] at hdec
  | some st =>
    cases hdr : st.decodeResult with
    | ok b => simp [efDecodes, hef, hdr] at hdec
    | fail e =>
      exact ⟨corruptMsg e, by simp [buildPageAttachment, hsub, stream_data, hef, hdr]⟩

theorem annots_attachments_false (i : Nat) (as : List Annot) :
    annots_attachments false i as =
      .ok ((as.filter annotIsFile).map (mkPageAtt false i)) := by
  induction as with
  | nil => rfl
  | cons a rest ih =>
    by_cases hf : annotIsFile a = true
    · have hsub : a.subtype = "/FileAttachment" := by simpa [annotIsFile] using hf
      simp [annots_attachments, buildPageAttachment_file_false i a hsub, ih,
        List.filter_cons, hf]
    · have hf' : annotIsFile a = false := by cases hh : annotIsFile a <;> simp_all
      simp [annots_attachments, buildPageAttachment_nonfile false i a hf', ih,
        List.filter_cons, hf']

theorem annots_attachments_true_ok (i : Nat) (as : List Annot)
    (h : as.all annotDecodes = true) :
    annots_attachments true i as =
      .ok ((as.filter annotIsFile).map (mkPageAtt true i)) := by
  induction as with
  | nil => rfl
  | cons a rest ih =>
    rw [List.all_cons, Bool.and_eq_true] at h
    by_cases hf : annotIsFile a = true
    · have hsub : a.subtype = "/FileAttachment" := by simpa [annotIsFile] using hf
      have hdec : efDecodes (a.fs.getD emptyFileSpec).ef = true := by
        have h1 := h.1
        rw [annotDecodes, hf] at h1
        simpa using h1
      simp [annots_attachments, buildPageAttachment_file_ok true i a hsub hdec,
        ih h.2, List.filter_cons, hf]
    · have hf' : annotIsFile a = false := by cases hh : annotIsFile a <;> simp_all
      simp [annots_attachments, buildPageAttachment_nonfile true i a hf', ih h.2,
        List.filter_cons, hf']

theorem annots_attachments_true_fail (i : Nat) (as : List Annot)
    (h : as.all annotDecodes = false) :
    ∃ m, annots_attachments true i as = .err (.corruptAttachment m) := by
  induction as with
  | nil => simp at h
  | cons a rest ih =>
    rw [List.all_cons] at h
    by_cases hda : annotDecodes a = true
    · have hrest : rest.all annotDecodes = false := by
        rw [hda] at h
        simpa using h
      obtain ⟨m, hm⟩ := ih hrest
      by_cases hf : annotIsFile a = true
      · have hsub : a.subtype = "/FileAttachment" := by simpa [annotIsFile] using hf
        have hdec : efDecodes (a.fs.getD emptyFileSpec).ef = true := by
          have h1 := hda
          rw [annotDecodes, hf] at h1
          simpa using h1
        exact ⟨m, by simp [annots_attachments,
          buildPageAttachment_file_ok true i a hsub hdec, hm]⟩
      · have hf' : annotIsFile a = false := by cases hh : annotIsFile a <;> simp_all
        exact ⟨m, by simp [annots_attachments,
          buildPageAttachment_nonfile true i a hf', hm]⟩
    · have hda' : annotDecodes a = false := by cases hh : annotDecodes a <;> simp_all
      have hf : annotIsFile a = true := by
        cases hh : annotIsFile a
        · rw [annotDecodes, hh] at hda'; simp at hda'
        · rfl
      have hsub : a.subtype = "/FileAttachment" := by simpa [annotIsFile] using hf
      have hdec : efDecodes (a.fs.getD emptyFileSpec).ef = false := by
        rw [annotDecodes, hf] at hda'
        simpa using hda'
      obtain ⟨m, hm⟩ := buildPageAttachment_file_fail i a hsub hdec
      exact ⟨m, by simp [annots_attachments, hm]⟩

theorem get_page_attachments_false (i : Nat) (ps : List Page) :
    get_page_attachments false i ps = .ok (purePagePart false i ps) := by
  induction ps generalizing i with
  | nil => rfl
  | cons p rest ih =>
    simp [get_page_attachments, annots_attachments_false, ih, purePagePart]

theorem get_page_attachments_true_ok (i : Nat) (ps : List Page)
    (h : pagesDecodable ps = true) :
    get_page_attachments true i ps = .ok (purePagePart true i ps) := by
  induction ps generalizing i with
  | nil => rfl
  | cons p rest ih =>
    rw [pagesDecodable, List.all_cons, Bool.and_eq_true] at h
    simp [get_page_attachments, annots_attachments_true_ok _ _ h.1,
      ih _ (by simpa [pagesDecodable] using h.2), purePagePart]

theorem get_page_attachments_true_fail (i : Nat) (ps : List Page)
    (h : pagesDecodable ps = false) :
    ∃ m, get_page_attachments true i ps = .err (.corruptAttachment m) := by
  induction ps generalizing i with
  | nil => simp [pagesDecodable] at h
  | cons p rest ih =>
    by_cases hp : p.annots.all annotDecodes = true
    · have hrest : pagesDecodable rest = false := by
        rw [pagesDecodable, List.all_cons, hp] at h
        simpa [pagesDecodable] using h
      obtain ⟨m, hm⟩ := ih (i + 1) hrest
      exact ⟨m, by simp [get_page_attachments, annots_attachments_true_ok _ _ hp, hm]⟩
    · have hp' : p.annots.all annotDecodes = false := by
        cases hh : p.annots.all annotDecodes <;> simp_all
      obtain ⟨m, hm⟩ := annots_attachments_true_fail i p.annots hp'
      exact ⟨m, by simp [get_page_attachments, hm]⟩

theorem list_attachments_eq (pairs : List (String × FileSpec)) (pages : List Page) :
    list_attachments ⟨toNamesElems pairs, pages⟩ =
      .ok (specEnumerationOrder pairs pages) := by
  simp [list_attachments, enumerate_attachments, get_document_attachments_false,
    get_page_attachments_false, specEnumerationOrder]

theorem enumerate_true_ok (pairs : List (String × FileSpec)) (pages : List Page)
    (h1 : pairsDecodable pairs = true) (h2 : pagesDecodable pages = true) :
    enumerate_attachments true ⟨toNamesElems pairs, pages⟩ =
      .ok (pureDocPart true pairs ++ purePagePart true 1 pages) := by
  simp [enumerate_attachments, get_document_attachments_true_ok _ h1,
    get_page_attachments_true_ok _ _ h2]

theorem enumerate_true_fail (pairs : List (String × FileSpec)) (pages : List Page)
    (h : (pairsDecodable pairs && pagesDecodable pages) = false) :
    ∃ m, enumerate_attachments true ⟨toNamesElems pairs, pages⟩ =
      .err (.corruptAttachment m) := by
  by_cases h1 : pairsDecodable pairs = true
  · have h2 : pagesDecodable pages = false := by
      rw [h1] at h
      simpa using h
    obtain ⟨m, hm⟩ := get_page_attachments_true_fail 1 pages h2
    exact ⟨m, by simp [enumerate_attachments,
      get_document_attachments_true_ok _ h1, hm]⟩
  · have h1' : pairsDecodable pairs = false := by
      cases hh : pairsDecodable pairs <;> simp_all
    obtain ⟨m, hm⟩ := get_document_attachments_true_fail _ h1'
    exact ⟨m, by simp [enumerate_attachments, hm]⟩

theorem pureDocPart_names (w : Bool) (pairs : List (String × FileSpec)) :
    (pureDocPart w pairs).map (fun a => a.name) = pairs.map (fun p => p.1) := by
  induction pairs with
  | nil => rfl
  | cons p rest ih =>
    simp [pureDocPart, mkDocAtt]

theorem purePagePart_names (w : Bool) (i : Nat) (ps : List Page) :
    (purePagePart w i ps).map (fun a => a.name) =
      (purePagePart false i ps).map (fun a => a.name) := by
  induction ps generalizing i with
  | nil => rfl
  | cons p rest ih =>
    simp only [purePagePart, List.map_append, List.map_map, ih]
    rfl

theorem pureDocPart_page_none (w : Bool) (pairs : List (String × FileSpec)) :
    ∀ a ∈ pureDocPart w pairs, a.page = none := by
  intro a ha
  rw [pureDocPart, List.mem_map] at ha
  obtain ⟨p, _, rfl⟩ := ha
  rfl

theorem find?_name_none_of_not_mem (l : List Attachment) (nm : String)
    (h : nm ∉ l.map (fun a => a.name)) :
    l.find? (fun a => decide (a.name = nm)) = none := by
  apply List.find?_eq_none.mpr
  intro a ha hpa
  apply h
  rw [List.mem_map]
  exact ⟨a, ha, of_decide_eq_true hpa⟩

theorem checkDup_none_notmem (resolved : List (InputFile × String)) :
    ∀ seen : List (String × InputFile), checkDup seen resolved = none →
      ∀ kv ∈ seen, kv.1 ∉ resolved.map (fun r => r.2) := by
  induction resolved with
  | nil =>
    intro seen _ kv _ h
    simp at h
  | cons r rest ih =>
    intro seen hnone kv hkv
    obtain ⟨f, n⟩ := r
    rw [checkDup] at hnone
    cases hfind : seen.find? (fun kv => decide (kv.1 = n)) with
    | some kv2 => rw [hfind] at hnone; exact absurd hnone (by simp)
    | none =>
      rw [hfind] at hnone
      have hne : kv.1 ≠ n := by
        intro heq
        have := List.find?_eq_none.mp hfind kv hkv
        simp [heq] at this
      have hrest := ih ((n, f) :: seen) hnone kv (List.mem_cons.mpr (Or.inr hkv))
      simp only [List.map_cons, List.mem_cons, not_or]
      exact ⟨hne, hrest⟩

theorem checkDup_none_nodup (resolved : List (InputFile × String)) :
    ∀ seen : List (String × InputFile), checkDup seen resolved = none →
      (resolved.map (fun r => r.2)).Nodup := by
  induction resolved with
  | nil => intro _ _; simp
  | cons r rest ih =>
    intro seen hnone
    obtain ⟨f, n⟩ := r
    rw [checkDup] at hnone
    cases hfind : seen.find? (fun kv => decide (kv.1 = n)) with
    | some kv2 => rw [hfind] at hnone; exact absurd hnone (by simp)
    | none =>
      rw [hfind] at hnone
      have h1 : n ∉ rest.map (fun r => r.2) :=
        checkDup_none_notmem rest ((n, f) :: seen) hnone (n, f)
          (List.mem_cons_self _ _)
      have h2 := ih ((n, f) :: seen) hnone
      simp only [List.map_cons, List.nodup_cons]
      exact ⟨h1, h2⟩

theorem checkDup_none_of_nodup (resolved : List (InputFile × String)) :
    ∀ seen : List (String × InputFile),
      (∀ r ∈ resolved, seen.find? (fun kv => decide (kv.1 = r.2)) = none) →
      (resolved.map (fun r => r.2)).Nodup → checkDup seen resolved = none := by
  induction resolved with
  | nil => intro _ _ _; rfl
  | cons r rest ih =>
    intro seen hdisj hnd
    obtain ⟨f, n⟩ := r
    rw [checkDup, hdisj (f, n) (List.mem_cons_self _ _)]
    rw [List.map_cons, List.nodup_cons] at hnd
    apply ih
    · intro r2 hr2
      rw [List.find?_cons_of_neg]
      · exact hdisj r2 (List.mem_cons.mpr (Or.inr hr2))
      · have : n ≠ r2.2 := by
          intro heq
          exact hnd.1 (heq ▸ List.mem_map.mpr ⟨r2, hr2, rfl⟩)
        simpa using this
    · exact hnd.2

theorem checkDup_spec (resolved : List (InputFile × String)) :
    ∀ (seen : List (String × InputFile)) (n : String) (f g : InputFile),
      checkDup seen resolved = some (n, f, g) →
      ((n, g) ∈ seen ∧ (f, n) ∈ resolved) ∨
        [(g, n), (f, n)].Sublist resolved := by
  induction resolved with
  | nil =>
    intro seen n f g h
    simp [checkDup] at h
  | cons r rest ih =>
    intro seen n f g h
    obtain ⟨f0, n0⟩ := r
    rw [checkDup] at h
    cases hfind : seen.find? (fun kv => decide (kv.1 = n0)) with
    | some kv1 =>
      rw [hfind] at h
      have hinj := Option.some.inj h
      have hn : n0 = n := congrArg Prod.fst hinj
      have hf0 : f0 = f := congrArg Prod.fst (congrArg Prod.snd hinj)
      have hg : kv1.2 = g := congrArg Prod.snd (congrArg Prod.snd hinj)
      left
      constructor
      · have hmem := List.mem_of_find?_eq_some hfind
        have hp0 := List.find?_some hfind
        have hp : kv1.1 = n0 := by simpa using hp0
        have hkv : kv1 = (n, g) := Prod.ext (hp.trans hn) hg
        rwa [hkv] at hmem
      · have hhd : (f, n) = (f0, n0) := by rw [hn, hf0]
        rw [hhd]
        exact List.mem_cons_self _ _
    | none =>
      rw [hfind] at h
      rcases ih ((n0, f0) :: seen) n f g h with ⟨hseen, hmem⟩ | hsub
      · rcases List.mem_cons.mp hseen with heq | hseen2
        · have h1 : n = n0 := congrArg Prod.fst heq
          have h2 : g = f0 := congrArg Prod.snd heq
          right
          rw [h1] at hmem ⊢
          rw [h2]
          exact List.Sublist.cons₂ _ (List.singleton_sublist.mpr hmem)
        · exact Or.inl ⟨hseen2, List.mem_cons.mpr (Or.inr hmem)⟩
      · exact Or.inr (hsub.cons _)

theorem get_document_attachments_false_odd (pairs : List (String × FileSpec))
    (e : NamesElem) :
    get_document_attachments false (toNamesElems pairs ++ [e]) =
      .err .indexError := by
  induction pairs with
  | nil => rfl
  | cons p rest ih =>
    obtain ⟨n, s⟩ := p
    simp [toNamesElems, get_document_attachments, asSpec, elemStr,
      buildDocAttachment_false, ih]

theorem add_attachment_cases (d : Document) (files : List InputFile)
    (out : String) (renames : List (String × String)) :
    (add_attachment d files out renames).2 = [] ∨
    (add_attachment d files out renames).1 = .ok files.length := by
  cases hcd : checkDup [] (resolvedOf files renames) with
  | some t => left; simp [add_attachment, hcd]
  | none =>
    cases hla : list_attachments d with
    | err pe => left; simp [add_attachment, hcd, hla]
    | ok atts =>
      by_cases hce : (((resolvedOf files renames).filter
          (fun r => decide (r.2 ∈ atts.map (fun a => a.name)))).map
            (fun r => r.2)).isEmpty = true
      · right
        simp only [add_attachment, hcd, hla]
        rw [if_pos hce]
      · left
        simp only [add_attachment, hcd, hla]
        rw [if_neg hce]

/-- Claim C4: whenever two input files (possibly from different paths)
resolve to the same final attachment name under the rename map,
`add_attachment` fails with the duplicate-input error
(`DuplicateInputNameError` in the spec's taxonomy), and the error —
including its message — identifies both source file paths and the
conflicting resolved name. -/
theorem add_duplicate_input_error (d : Document) (files : List InputFile)
    (out : String) (renames : List (String × String))
    (h : ¬ ((resolvedOf files renames).map (fun r => r.2)).Nodup) :
    ∃ (n : String) (f g : InputFile),
      [(g, n), (f, n)].Sublist (resolvedOf files renames) ∧
      add_attachment d files out renames =
        (.err (.duplicateInput n f.path g.path
          ("Duplicate input name " ++ quoteS n ++ " (from " ++ quoteS f.path ++
            " and " ++ quoteS g.path ++
            "). Use --name to rename one of them.")), []) := by
  cases hcd : checkDup [] (resolvedOf files renames) with
  | none => exact absurd (checkDup_none_nodup _ _ hcd) h
  | some t =>
    obtain ⟨n, f, g⟩ := t
    rcases checkDup_spec _ [] n f g hcd with ⟨hseen, _⟩ | hsub
    · simp at hseen
    · refine ⟨n, f, g, hsub, ?_⟩
      simp [add_attachment, hcd, dupMsg]

theorem add_duplicate_input_error_witness :
    (¬ ((resolvedOf [fileA, fileB] []).map (fun r => r.2)).Nodup) ∧
    ∃ (n : String) (f g : InputFile),
      [(g, n), (f, n)].Sublist (resolvedOf [fileA, fileB] []) ∧
      add_attachment emptyDoc [fileA, fileB] "out.pdf" [] =
        (.err (.duplicateInput n f.path g.path
          ("Duplicate input name " ++ quoteS n ++ " (from " ++ quoteS f.path ++
            " and " ++ quoteS g.path ++
            "). Use --name to rename one of them.")), []) :=
  ⟨by decide, add_duplicate_input_error emptyDoc [fileA, fileB] "out.pdf" []
    (by decide)⟩

/-- Claim C5: a failed `add_attachment` (any raised error: duplicate
resolved input names, collision with an existing attachment name, or an
enumeration failure) performs no file write at all, so a destination
distinct from the source is never created or modified. -/
theorem add_failure_writes_nothing (d : Document) (files : List InputFile)
    (out : String) (renames : List (String × String)) (e : AddError)
    (h : (add_attachment d files out renames).1 = .err e) :
    (add_attachment d files out renames).2 = [] := by
  rcases add_attachment_cases d files out renames with h2 | h2
  · exact h2
  · rw [h] at h2
    simp at h2

theorem add_failure_writes_nothing_witness :
    (add_attachment emptyDoc [fileA, fileB] "o.pdf" []).1 =
      .err (.duplicateInput "x.txt" "b/x.txt" "a/x.txt"
        (dupMsg "x.txt" "b/x.txt" "a/x.txt")) ∧
    (add_attachment emptyDoc [fileA, fileB] "o.pdf" []).2 = [] :=
  ⟨by decide, add_failure_writes_nothing emptyDoc [fileA, fileB] "o.pdf" []
    (.duplicateInput "x.txt" "b/x.txt" "a/x.txt"
      (dupMsg "x.txt" "b/x.txt" "a/x.txt")) (by decide)⟩

/-- Claim C7: `_stream_size` prefers the declared `/Params` `/Size`,
falls back to the decoded byte length, and yields `None` (unknown) when
the stream fails to decode and declares no size; in particular listing
never fails because of an undecodable stream (the metadata enumeration
succeeds on any well-formed name tree). -/
theorem stream_size_resolution :
    (∀ (st : PdfStream) (n : Int), st.paramsSize = some n →
      stream_size (some st) = some n) ∧
    (∀ (st : PdfStream) (b : List Nat), st.paramsSize = none →
      st.decodeResult = .ok b →
      stream_size (some st) = some (Int.ofNat b.length)) ∧
    (∀ (st : PdfStream) (e : String), st.paramsSize = none →
      st.decodeResult = .fail e → stream_size (some st) = none) ∧
    (∀ (pairs : List (String × FileSpec)) (pages : List Page),
      list_attachments ⟨toNamesElems pairs, pages⟩ =
        .ok (specEnumerationOrder pairs pages)) := by
  refine ⟨?_, ?_, ?_, fun pairs pages => list_attachments_eq pairs pages⟩
  · intro st n h
    simp [stream_size, h]
  · intro st b h1 h2
    simp [stream_size, h1, h2]
  · intro st e h1 h2
    simp [stream_size, h1, h2]

theorem stream_size_resolution_witness :
    stream_size (some corruptStream) = some 5 ∧
    stream_size (some (okStream [1, 2, 3])) = some 3 ∧
    stream_size (some { paramsSize := none, decodeResult := .fail "x" }) =
      none ∧
    list_attachments ⟨toNamesElems [("bad.txt", corruptSpec)], []⟩ =
      .ok (specEnumerationOrder [("bad.txt", corruptSpec)] []) :=
  ⟨stream_size_resolution.1 corruptStream 5 rfl,
   stream_size_resolution.2.1 (okStream [1, 2, 3]) [1, 2, 3] rfl rfl,
   stream_size_resolution.2.2.1 _ "x" rfl rfl,
   stream_size_resolution.2.2.2 [("bad.txt", corruptSpec)] []⟩

/-- Claim C8: an odd-length `/EmbeddedFiles` `/Names` array makes the
enumeration fail with a structural error (the uncaught `IndexError`
raised by `names[i + 1]`), rather than silently skipping the unpaired
trailing entry. -/
theorem odd_names_array_errors (pairs : List (String × FileSpec))
    (e : NamesElem) (pages : List Page) :
    list_attachments ⟨toNamesElems pairs ++ [e], pages⟩ = .err .indexError := by
  simp [list_attachments, enumerate_attachments,
    get_document_attachments_false_odd]

/-- Claim C9 (implicit): `get_attachment` decodes every attachment
stream before matching by name, so on a document with at least one
undecodable attachment stream it raises `CorruptAttachmentError` for
every requested name — healthy and absent names included. -/
theorem corrupt_stream_poisons_get (pairs : List (String × FileSpec))
    (pages : List Page)
    (h : (pairsDecodable pairs && pagesDecodable pages) = false) :
    ∀ nm : String, ∃ m : String,
      get_attachment ⟨toNamesElems pairs, pages⟩ nm =
        .err (.corruptAttachment m) := by
  intro nm
  obtain ⟨m, hm⟩ := enumerate_true_fail pairs pages h
  exact ⟨m, by simp [get_attachment, hm]⟩

theorem corrupt_stream_poisons_get_witness :
    ((pairsDecodable [("bad.txt", corruptSpec)] && pagesDecodable []) =
      false) ∧
    (∃ m : String, get_attachment docWithCorrupt "healthy.txt" =
      .err (.corruptAttachment m)) :=
  ⟨by decide,
   corrupt_stream_poisons_get [("bad.txt", corruptSpec)] [] (by decide)
     "healthy.txt"⟩

/-- Claim C10 (implicit): a file specification whose `/EF` dictionary
lacks the `/F` stream entry yields an attachment with `data = None` and
no error; the CLI `get` command then reports such a match as not found
with exit code 1. -/
theorem missing_stream_data_none :
    (∀ (w : Bool) (nm : String) (sp : FileSpec), sp.ef = none →
      buildDocAttachment w nm sp =
        .ok { name := nm, size := none, description := sp.desc.getD "",
              page := none, data := none }) ∧
    (∀ (d : Document) (nm : String) (out : Option String) (a : Attachment),
      get_attachment d nm = .ok (some a) → a.data = none →
      cmd_get d nm out = .notFound ∧ exitCode (cmd_get d nm out) = 1) := by
  constructor
  · intro w nm sp h
    cases w <;> simp [buildDocAttachment, stream_data, stream_size, h]
  · intro d nm out a hget hdata
    have hcg : cmd_get d nm out = .notFound := by
      simp [cmd_get, hget, hdata]
    exact ⟨hcg, by simp [hcg, exitCode]⟩

/-- Claim C3 (amended): when the resolved input names are pairwise
distinct (otherwise the duplicate-input check fires first) and the
document enumerates, an add whose resolved names collide with existing
attachment names fails with the existing-name error
(`ExistingAttachmentNameError` in the spec's taxonomy) whose list — and
message — contains every colliding resolved name, not only the first. -/
theorem add_collision_error_lists_all (pairs : List (String × FileSpec))
    (pages : List Page) (files : List InputFile) (out : String)
    (renames : List (String × String))
    (hnd : ((resolvedOf files renames).map (fun r => r.2)).Nodup)
    (hc : collisionList files renames pairs pages ≠ []) :
    add_attachment ⟨toNamesElems pairs, pages⟩ files out renames =
      (.err (.existingNames (collisionList files renames pairs pages)
        (collisionMsg (collisionList files renames pairs pages))), []) ∧
    ∀ r ∈ resolvedOf files renames,
      r.2 ∈ (specEnumerationOrder pairs pages).map (fun a => a.name) →
      r.2 ∈ collisionList files renames pairs pages := by
  have hcd : checkDup [] (resolvedOf files renames) = none :=
    checkDup_none_of_nodup _ [] (fun r _ => rfl) hnd
  constructor
  · have hne : ¬ ((((resolvedOf files renames).filter
        (fun r => decide (r.2 ∈ (specEnumerationOrder pairs pages).map
          (fun a => a.name)))).map (fun r => r.2)).isEmpty = true) := by
      intro hh
      exact hc (by rw [collisionList]; exact List.isEmpty_iff.mp hh)
    simp only [add_attachment, hcd, list_attachments_eq, collisionList]
    rw [if_neg hne]
  · intro r hr hmem
    rw [collisionList, List.mem_map]
    exact ⟨r, List.mem_filter.mpr ⟨hr, by simpa using hmem⟩, rfl⟩

theorem add_collision_error_lists_all_witness :
    ((resolvedOf [fileC] []).map (fun r => r.2)).Nodup ∧
    collisionList [fileC] [] pairsX [] ≠ [] ∧
    (add_attachment ⟨toNamesElems pairsX, []⟩ [fileC] "o.pdf" [] =
      (.err (.existingNames (collisionList [fileC] [] pairsX [])
        (collisionMsg (collisionList [fileC] [] pairsX []))), []) ∧
     ∀ r ∈ resolvedOf [fileC] [],
       r.2 ∈ (specEnumerationOrder pairsX []).map (fun a => a.name) →
       r.2 ∈ collisionList [fileC] [] pairsX []) :=
  ⟨by decide, by decide,
   add_collision_error_lists_all pairsX [] [fileC] "o.pdf" [] (by decide)
     (by decide)⟩

theorem add_collision_counterexample :
    (resolvedOf [fileA, fileB] []).map (fun r => r.2) = ["x.txt", "x.txt"] ∧
    "x.txt" ∈ (specEnumerationOrder pairsX []).map (fun a => a.name) ∧
    add_attachment docX [fileA, fileB] "o.pdf" [] =
      (.err (.duplicateInput "x.txt" "b/x.txt" "a/x.txt"
        (dupMsg "x.txt" "b/x.txt" "a/x.txt")), []) := by decide

/-- Claim C6: `list_attachments` enumerates document-level attachments
in name-tree pair order first, then page-level attachments in
increasing page-number order, within each page in `/Annots` array order
filtered to the file-attachment subtype; consequently when a
document-level attachment bears the requested name, `get_attachment`
returns a document-level attachment (`page = none`) — ties with a
page-level attachment of the same name prefer the document-level
one. -/
theorem enumeration_order_and_tie (pairs : List (String × FileSpec))
    (pages : List Page) :
    list_attachments ⟨toNamesElems pairs, pages⟩ =
      .ok (specEnumerationOrder pairs pages) ∧
    ∀ nm : String, pairsDecodable pairs = true → pagesDecodable pages = true →
      nm ∈ pairs.map (fun p => p.1) →
      ∃ a : Attachment,
        get_attachment ⟨toNamesElems pairs, pages⟩ nm = .ok (some a) ∧
        a.page = none := by
  refine ⟨list_attachments_eq pairs pages, ?_⟩
  intro nm h1 h2 hmem
  have hx : ∃ x ∈ pureDocPart true pairs,
      (fun a => decide (a.name = nm)) x = true := by
    rw [List.mem_map] at hmem
    obtain ⟨p, hp, hpn⟩ := hmem
    exact ⟨mkDocAtt true p, List.mem_map.mpr ⟨p, hp, rfl⟩,
      by simp [mkDocAtt, hpn]⟩
  have hsome : ((pureDocPart true pairs).find?
      (fun a => decide (a.name = nm))).isSome = true :=
    List.find?_isSome.mpr hx
  obtain ⟨a, ha⟩ := Option.isSome_iff_exists.mp hsome
  refine ⟨a, ?_, pureDocPart_page_none true pairs a
    (List.mem_of_find?_eq_some ha)⟩
  rw [get_attachment, enumerate_true_ok pairs pages h1 h2]
  simp only [Res.bind_ok, Res.pure_eq]
  rw [List.find?_append, ha]
  rfl

theorem enumeration_order_and_tie_witness :
    pairsDecodable pairsX = true ∧ pagesDecodable [tiePage] = true ∧
    "x.txt" ∈ pairsX.map (fun p => p.1) ∧
    ∃ a : Attachment,
      get_attachment ⟨toNamesElems pairsX, [tiePage]⟩ "x.txt" =
        .ok (some a) ∧ a.page = none :=
  ⟨by decide, by decide, by decide,
   (enumeration_order_and_tie pairsX [tiePage]).2 "x.txt" (by decide)
     (by decide) (by decide)⟩

/-- Claim C2 (amended): `get_attachment` yields the not-found result
(`None`, which the CLI reports as not found — the spec's
`NotFoundError`) when no attachment has the requested name *and* every
attachment stream decodes; and it raises `CorruptAttachmentError` when
an attachment with the requested name is present but undecodable.  The
original claim's unconditional not-found half is false: a corrupt
stream elsewhere in the document preempts it (see the
counterexample). -/
theorem get_notfound_and_corrupt (pairs : List (String × FileSpec))
    (pages : List Page) (nm : String) :
    (pairsDecodable pairs = true → pagesDecodable pages = true →
      nm ∉ (specEnumerationOrder pairs pages).map (fun a => a.name) →
      get_attachment ⟨toNamesElems pairs, pages⟩ nm = .ok none) ∧
    (corruptNamed pairs pages nm →
      ∃ m : String, get_attachment ⟨toNamesElems pairs, pages⟩ nm =
        .err (.corruptAttachment m)) := by
  constructor
  · intro h1 h2 hnot
    rw [get_attachment, enumerate_true_ok pairs pages h1 h2]
    simp only [Res.bind_ok, Res.pure_eq]
    have hfn : (pureDocPart true pairs ++ purePagePart true 1 pages).find?
        (fun a => decide (a.name = nm)) = none := by
      apply find?_name_none_of_not_mem
      rw [List.map_append, pureDocPart_names, purePagePart_names]
      rw [specEnumerationOrder, List.map_append, pureDocPart_names] at hnot
      exact hnot
    rw [hfn]
  · intro hc
    have hbad : (pairsDecodable pairs && pagesDecodable pages) = false := by
      rcases hc with ⟨p, hp, _, hdec⟩ | ⟨pg, hpg, a, ha, hf, _, hdec⟩
      · have hpd : pairsDecodable pairs = false := by
          cases hh : pairsDecodable pairs
          · rfl
          · have h4 := List.all_eq_true.mp hh p hp
            simp only at h4
            simp [hdec] at h4
        rw [hpd, Bool.false_and]
      · have hpd : pagesDecodable pages = false := by
          cases hh : pagesDecodable pages
          · rfl
          · have h3 := List.all_eq_true.mp hh pg hpg
            simp only at h3
            have h4 := List.all_eq_true.mp h3 a ha
            rw [annotDecodes, hf] at h4
            simp [hdec] at h4
        rw [hpd, Bool.and_false]
    obtain ⟨m, hm⟩ := enumerate_true_fail pairs pages hbad
    exact ⟨m, by simp [get_attachment, hm]⟩

theorem get_notfound_and_corrupt_witness :
    get_attachment emptyDoc "zzz.txt" = .ok none ∧
    (∃ m : String, get_attachment docWithCorrupt "bad.txt" =
      .err (.corruptAttachment m)) :=
  ⟨(get_notfound_and_corrupt [] [] "zzz.txt").1 rfl rfl (by decide),
   (get_notfound_and_corrupt [("bad.txt", corruptSpec)] [] "bad.txt").2
     (Or.inl ⟨("bad.txt", corruptSpec), List.mem_cons_self _ _, rfl, rfl⟩)⟩

theorem get_absent_name_counterexample :
    (specEnumerationOrder [("bad.txt", corruptSpec)] []).map
      (fun a => a.name) = ["bad.txt"] ∧
    get_attachment docWithCorrupt "absent.txt" =
      .err (.corruptAttachment (corruptMsg "bad filter")) := by decide

/-- Claim C1 (amended): for every source document whose name tree is
well formed and all of whose attachment streams decode, adding a file
whose resolved name does not collide with any existing attachment name
and then getting that name from the written document returns the
attachment with exactly the added bytes.  The original claim's "every
source PDF" is false: an undecodable stream already present in the
source poisons the subsequent `get_attachment` (see the
counterexample). -/
theorem add_get_roundtrip (pairs : List (String × FileSpec))
    (pages : List Page) (f : InputFile) (renames : List (String × String))
    (out : String)
    (h1 : pairsDecodable pairs = true) (h2 : pagesDecodable pages = true)
    (h3 : resolveName renames f ∉
      (specEnumerationOrder pairs pages).map (fun a => a.name)) :
    ∃ d2 : Document,
      add_attachment ⟨toNamesElems pairs, pages⟩ [f] out renames =
        (.ok 1, [(out, d2)]) ∧
      ∃ a : Attachment,
        get_attachment d2 (resolveName renames f) = .ok (some a) ∧
        a.data = some f.content ∧ a.name = resolveName renames f := by
  have hcd : checkDup [] (resolvedOf [f] renames) = none := rfl
  refine ⟨⟨toNamesElems pairs ++
    [.name (resolveName renames f), .spec (okSpecOf f.content)], pages⟩,
    ?_, ?_⟩
  · have hne : ((((resolvedOf [f] renames).filter
        (fun r => decide (r.2 ∈ (specEnumerationOrder pairs pages).map
          (fun a => a.name)))).map (fun r => r.2)).isEmpty = true) := by
      have hcond : ¬ ((fun r : InputFile × String =>
          decide (r.2 ∈ (specEnumerationOrder pairs pages).map
            (fun a => a.name))) (f, resolveName renames f) = true) := by
        intro hco
        exact h3 (of_decide_eq_true hco)
      show (([(f, resolveName renames f)].filter
        (fun r => decide (r.2 ∈ (specEnumerationOrder pairs pages).map
          (fun a => a.name)))).map (fun r => r.2)).isEmpty = true
      rw [List.filter_cons, if_neg hcond]
      rfl
    simp only [add_attachment, hcd, list_attachments_eq]
    rw [if_pos hne]
    rfl
  · have happ : toNamesElems pairs ++
        [.name (resolveName renames f), .spec (okSpecOf f.content)] =
        toNamesElems (pairs ++ [(resolveName renames f, okSpecOf f.content)]) := by
      rw [toNamesElems_append]
      rfl
    rw [happ]
    have h1' : pairsDecodable
        (pairs ++ [(resolveName renames f, okSpecOf f.content)]) = true := by
      rw [pairsDecodable, List.all_append]
      rw [pairsDecodable] at h1
      rw [h1]
      rfl
    refine ⟨mkDocAtt true (resolveName renames f, okSpecOf f.content),
      ?_, rfl, rfl⟩
    rw [get_attachment, enumerate_true_ok _ pages h1' h2]
    simp only [Res.bind_ok, Res.pure_eq]
    have hsplit : pureDocPart true
        (pairs ++ [(resolveName renames f, okSpecOf f.content)]) =
        pureDocPart true pairs ++
          [mkDocAtt true (resolveName renames f, okSpecOf f.content)] := by
      rw [pureDocPart, List.map_append]
      rfl
    have hfd : (pureDocPart true pairs).find?
        (fun a => decide (a.name = resolveName renames f)) = none := by
      apply find?_name_none_of_not_mem
      rw [pureDocPart_names]
      intro hmm
      apply h3
      rw [specEnumerationOrder, List.map_append, pureDocPart_names]
      exact List.mem_append.mpr (Or.inl hmm)
    rw [hsplit, List.append_assoc, List.find?_append, hfd, Option.none_or,
      List.singleton_append,
      List.find?_cons_of_pos _ (by simp [mkDocAtt])]

theorem add_get_roundtrip_witness :
    pairsDecodable [] = true ∧ pagesDecodable [] = true ∧
    resolveName [] goodFile ∉
      (specEnumerationOrder [] []).map (fun a => a.name) ∧
    ∃ d2 : Document,
      add_attachment emptyDoc [goodFile] "o.pdf" [] = (.ok 1, [("o.pdf", d2)]) ∧
      ∃ a : Attachment,
        get_attachment d2 (resolveName [] goodFile) = .ok (some a) ∧
        a.data = some goodFile.content ∧ a.name = resolveName [] goodFile :=
  ⟨rfl, rfl, by decide,
   add_get_roundtrip [] [] goodFile [] "o.pdf" rfl rfl (by decide)⟩

theorem add_get_roundtrip_counterexample :
    list_attachments docWithCorrupt =
      .ok [{ name := "bad.txt", size := some 5, description := "",
             page := none, data := none }] ∧
    resolveName [] goodFile = "good.txt" ∧
    add_attachment docWithCorrupt [goodFile] "out.pdf" [] =
      (.ok 1, [("out.pdf", docAfterAdd)]) ∧
    get_attachment docAfterAdd "good.txt" =
      .err (.corruptAttachment (corruptMsg "bad filter")) := by decide

theorem missing_stream_data_none_witness :
    get_attachment doc10 "a.txt" =
      .ok (some { name := "a.txt", size := none, description := "",
                  page := none, data := none }) ∧
    cmd_get doc10 "a.txt" none = .notFound ∧
    exitCode (cmd_get doc10 "a.txt" none) = 1 :=
  ⟨by decide,
   missing_stream_data_none.2 doc10 "a.txt" none
     { name := "a.txt", size := none, description := "", page := none,
       data := none } (by decide) rfl⟩

end PdfAttachments
